import Mathlib

/-!
Verification of the trajectory kinematics engine of the tagCalibration
repository.  The embedding follows `trajectory_analysis.py`
(`TrajectoryAnalyzer.load_data`, `TrajectoryAnalyzer.calculate_metrics`,
`TrajectoryAnalyzer.print_summary`) and `live_tracker.py`
(`LiveArucoTracker.process_frame`, the SPACE-key recording toggle in
`LiveArucoTracker.run_live_tracking`).

The pandas/numpy float pipeline is modelled over an IEEE-754-style scalar
type `FV` (a finite value, +inf, -inf, or NaN) whose finite values are exact
reals.  pandas `Series.diff` places NaN at index 0, `Series.cumsum` skips NaN
(default `skipna=True`), float division by zero yields an infinity or NaN,
and `np.sqrt` of a negative or NaN input yields NaN; all of these behaviours
are reproduced below.  The Savitzky-Golay smoothing filter
(`scipy.signal.savgol_filter`, default `mode='interp'`) is modelled at the
source's default window length 5 and the hard-coded polynomial order 2.
-/

/-- IEEE-754-style scalar as produced by the numpy/pandas pipeline: a finite
value (modelled as an exact real), positive infinity, negative infinity, or
NaN. -/
inductive FV where
  | fin (x : ℝ)
  | pinf
  | ninf
  | nan

/-- Whether a value is finite (neither an infinity nor NaN). -/
def FV.isFin : FV → Bool
  | .fin _ => true
  | _ => false

/-- Whether a value is NaN (what pandas `dropna` removes). -/
def FV.isNan : FV → Bool
  | .nan => true
  | _ => false

/-- IEEE negation. -/
def FV.neg : FV → FV
  | .fin x => .fin (-x)
  | .pinf => .ninf
  | .ninf => .pinf
  | .nan => .nan

/-- IEEE addition: NaN absorbs, infinities of opposite sign give NaN. -/
def FV.add : FV → FV → FV
  | .nan, _ => .nan
  | _, .nan => .nan
  | .fin a, .fin b => .fin (a + b)
  | .fin _, .pinf => .pinf
  | .fin _, .ninf => .ninf
  | .pinf, .fin _ => .pinf
  | .ninf, .fin _ => .ninf
  | .pinf, .pinf => .pinf
  | .ninf, .ninf => .ninf
  | .pinf, .ninf => .nan
  | .ninf, .pinf => .nan

/-- IEEE subtraction `a - b = a + (-b)`. -/
def FV.sub (a b : FV) : FV := a.add b.neg

/-- IEEE squaring (`x ** 2` in numpy): both infinities square to +inf. -/
def FV.sq : FV → FV
  | .fin x => .fin (x ^ 2)
  | .pinf => .pinf
  | .ninf => .pinf
  | .nan => .nan

/-- IEEE division as performed by the numpy pipeline.  Division of a nonzero
finite value by zero gives a signed infinity, `0 / 0` gives NaN (the zero
denominators produced by `timestamp.diff()` are positive zeros, so the sign
of the result follows the sign of the numerator). -/
noncomputable def FV.div : FV → FV → FV
  | .nan, _ => .nan
  | _, .nan => .nan
  | .fin a, .fin b =>
      if b = 0 then (if a = 0 then .nan else if 0 < a then .pinf else .ninf)
      else .fin (a / b)
  | .fin _, .pinf => .fin 0
  | .fin _, .ninf => .fin 0
  | .pinf, .fin b => if 0 ≤ b then .pinf else .ninf
  | .ninf, .fin b => if 0 ≤ b then .ninf else .pinf
  | .pinf, .pinf => .nan
  | .pinf, .ninf => .nan
  | .ninf, .pinf => .nan
  | .ninf, .ninf => .nan

/-- IEEE square root (`np.sqrt`): NaN on negative or NaN input. -/
noncomputable def FV.sqrt : FV → FV
  | .fin x => if x < 0 then .nan else .fin (Real.sqrt x)
  | .pinf => .pinf
  | .ninf => .nan
  | .nan => .nan

/-- Multiplication by a finite real constant (used by the smoothing filter;
`0 * inf` is NaN as in IEEE). -/
noncomputable def FV.scale (c : ℝ) : FV → FV
  | .fin x => .fin (c * x)
  | .pinf => if 0 < c then .pinf else if c < 0 then .ninf else .nan
  | .ninf => if 0 < c then .ninf else if c < 0 then .pinf else .nan
  | .nan => .nan

/-- Model of `sqrt(a^2 + b^2 + c^2)`, the Euclidean magnitude used for `distance`,
`speed`, `acceleration` and `angular_speed`. -/
noncomputable def mag3 (a b c : FV) : FV := FV.sqrt ((a.sq.add b.sq).add c.sq)

/-- One pose record, matching the persisted CSV schema
`timestamp,frame,marker_id,x,y,z,rx,ry,rz`. -/
structure Row where
  timestamp : ℝ
  frame : ℤ
  marker_id : ℤ
  x : ℝ
  y : ℝ
  z : ℝ
  rx : ℝ
  ry : ℝ
  rz : ℝ

/-- pandas `Series.diff` modelled on lists: NaN at index 0, and
`f previous current` at every later index. -/
def diffL (f : α → α → FV) : List α → List FV
  | [] => []
  | a :: rest => FV.nan :: List.zipWith f (a :: rest) rest

/-- Three-list `zipWith`, used for the elementwise magnitude columns. -/
def zip3W (f : α → β → γ → δ) : List α → List β → List γ → List δ
  | a :: as, b :: bs, c :: cs => f a b c :: zip3W f as bs cs
  | _, _, _ => []

/-- Model of `df['dt'] = df['timestamp'].diff()`. -/
def dtOf (rows : List Row) : List FV :=
  diffL (fun p c => FV.fin (c.timestamp - p.timestamp)) rows

/-- Model of `df['dx'] = df['x'].diff()`. -/
def dxOf (rows : List Row) : List FV := diffL (fun p c => FV.fin (c.x - p.x)) rows

/-- Model of `df['dy'] = df['y'].diff()`. -/
def dyOf (rows : List Row) : List FV := diffL (fun p c => FV.fin (c.y - p.y)) rows

/-- Model of `df['dz'] = df['z'].diff()`. -/
def dzOf (rows : List Row) : List FV := diffL (fun p c => FV.fin (c.z - p.z)) rows

/-- Model of `df['distance'] = np.sqrt(df['dx']**2 + df['dy']**2 + df['dz']**2)`. -/
noncomputable def distOf (rows : List Row) : List FV :=
  zip3W mag3 (dxOf rows) (dyOf rows) (dzOf rows)

/-- pandas `Series.cumsum` with its default `skipna=True`: NaN entries stay
NaN in place and are skipped by the running sum. -/
def cumsumGo (acc : FV) : List FV → List FV
  | [] => []
  | v :: rest =>
    match v with
    | .nan => FV.nan :: cumsumGo acc rest
    | w => (acc.add w) :: cumsumGo (acc.add w) rest

/-- Model of `df['cumulative_distance'] = df['distance'].cumsum()`. -/
def cumsum (l : List FV) : List FV := cumsumGo (FV.fin 0) l

/-- The `cumulative_distance` column. -/
noncomputable def cumdistOf (rows : List Row) : List FV := cumsum (distOf rows)

/-- Model of `df['vx'] = df['dx'] / df['dt']`. -/
noncomputable def vxOf (rows : List Row) : List FV :=
  List.zipWith FV.div (dxOf rows) (dtOf rows)

/-- Model of `df['vy'] = df['dy'] / df['dt']`. -/
noncomputable def vyOf (rows : List Row) : List FV :=
  List.zipWith FV.div (dyOf rows) (dtOf rows)

/-- Model of `df['vz'] = df['dz'] / df['dt']`. -/
noncomputable def vzOf (rows : List Row) : List FV :=
  List.zipWith FV.div (dzOf rows) (dtOf rows)

/-- Model of `df['speed'] = np.sqrt(df['vx']**2 + df['vy']**2 + df['vz']**2)` before
any smoothing (retained as `speed_raw` when smoothing fires). -/
noncomputable def speedRawOf (rows : List Row) : List FV :=
  zip3W mag3 (vxOf rows) (vyOf rows) (vzOf rows)

/-- Model of `df['ax'] = df['vx'].diff() / df['dt']`. -/
noncomputable def axOf (rows : List Row) : List FV :=
  List.zipWith FV.div (diffL (fun p c => FV.sub c p) (vxOf rows)) (dtOf rows)

/-- Model of `df['ay'] = df['vy'].diff() / df['dt']`. -/
noncomputable def ayOf (rows : List Row) : List FV :=
  List.zipWith FV.div (diffL (fun p c => FV.sub c p) (vyOf rows)) (dtOf rows)

/-- Model of `df['az'] = df['vz'].diff() / df['dt']`. -/
noncomputable def azOf (rows : List Row) : List FV :=
  List.zipWith FV.div (diffL (fun p c => FV.sub c p) (vzOf rows)) (dtOf rows)

/-- The `acceleration` magnitude column before any smoothing. -/
noncomputable def accelRawOf (rows : List Row) : List FV :=
  zip3W mag3 (axOf rows) (ayOf rows) (azOf rows)

/-- Model of `df['drx'] = df['rx'].diff()`. -/
def drxOf (rows : List Row) : List FV := diffL (fun p c => FV.fin (c.rx - p.rx)) rows

/-- Model of `df['dry'] = df['ry'].diff()`. -/
def dryOf (rows : List Row) : List FV := diffL (fun p c => FV.fin (c.ry - p.ry)) rows

/-- Model of `df['drz'] = df['rz'].diff()`. -/
def drzOf (rows : List Row) : List FV := diffL (fun p c => FV.fin (c.rz - p.rz)) rows

/-- Model of `df['omega_x'] = df['drx'] / df['dt']`. -/
noncomputable def omegaXOf (rows : List Row) : List FV :=
  List.zipWith FV.div (drxOf rows) (dtOf rows)

/-- Model of `df['omega_y'] = df['dry'] / df['dt']`. -/
noncomputable def omegaYOf (rows : List Row) : List FV :=
  List.zipWith FV.div (dryOf rows) (dtOf rows)

/-- Model of `df['omega_z'] = df['drz'] / df['dt']`. -/
noncomputable def omegaZOf (rows : List Row) : List FV :=
  List.zipWith FV.div (drzOf rows) (dtOf rows)

/-- The `angular_speed` magnitude column before any smoothing. -/
noncomputable def angularRawOf (rows : List Row) : List FV :=
  zip3W mag3 (omegaXOf rows) (omegaYOf rows) (omegaZOf rows)

/-- Model of `np.degrees(df['rx'])` (raw, before smoothing). -/
noncomputable def rxDegRawOf (rows : List Row) : List FV :=
  rows.map (fun r => FV.fin (r.rx * (180 / Real.pi)))

/-- Model of `np.degrees(df['ry'])` (raw, before smoothing). -/
noncomputable def ryDegRawOf (rows : List Row) : List FV :=
  rows.map (fun r => FV.fin (r.ry * (180 / Real.pi)))

/-- Model of `np.degrees(df['rz'])` (raw, before smoothing). -/
noncomputable def rzDegRawOf (rows : List Row) : List FV :=
  rows.map (fun r => FV.fin (r.rz * (180 / Real.pi)))

/-- Model of `Series.fillna(0)`: NaN becomes 0, infinities are kept. -/
def fillNa0 : FV → FV
  | .nan => FV.fin 0
  | v => v

/-- Weighted sum of five values with finite real coefficients. -/
noncomputable def dot5 (c1 c2 c3 c4 c5 : ℝ) (x1 x2 x3 x4 x5 : FV) : FV :=
  ((((FV.scale c1 x1).add (FV.scale c2 x2)).add (FV.scale c3 x3)).add
    (FV.scale c4 x4)).add (FV.scale c5 x5)

/-- Interior part of the Savitzky-Golay filter (window 5, order 2): the
classic convolution coefficients `(-3, 12, 17, 12, -3) / 35` slid over every
centred window, producing outputs for indices `2 .. n-3`. -/
noncomputable def sgMid : List FV → List FV
  | x1 :: x2 :: x3 :: x4 :: x5 :: rest =>
      dot5 (-3/35) (12/35) (17/35) (12/35) (-3/35) x1 x2 x3 x4 x5 ::
        sgMid (x2 :: x3 :: x4 :: x5 :: rest)
  | _ => []

/-- Model of `scipy.signal.savgol_filter(x, 5, 2)` with its default `mode='interp'`:
interior points are the order-2 window-5 convolution; the first two and last
two outputs evaluate the least-squares quadratic fitted to the first or last
five samples (the rows of the order-2 hat matrix on five points). -/
noncomputable def savgol5 (xs : List FV) : List FV :=
  match xs, xs.reverse with
  | x1 :: x2 :: x3 :: x4 :: x5 :: _, z1 :: z2 :: z3 :: z4 :: z5 :: _ =>
      dot5 (31/35) (9/35) (-3/35) (-5/35) (3/35) x1 x2 x3 x4 x5 ::
      dot5 (9/35) (13/35) (12/35) (6/35) (-5/35) x1 x2 x3 x4 x5 ::
      (sgMid xs ++
        [dot5 (-5/35) (6/35) (12/35) (13/35) (9/35) z5 z4 z3 z2 z1,
         dot5 (3/35) (-5/35) (-3/35) (9/35) (31/35) z5 z4 z3 z2 z1])
  | _, _ => xs

/-- The smoothing step of `calculate_metrics`: when `smooth` is set and the
series is longer than the window (the source's default window 5), the channel
is replaced by `savgol_filter(col.fillna(0), 5, 2)`; otherwise it is left
untouched. -/
noncomputable def smoothIf (smooth : Bool) (n : ℕ) (chan : List FV) : List FV :=
  if smooth = true ∧ 5 < n then savgol5 (chan.map fillNa0) else chan

/-- The `speed` column of the returned frame (smoothed when applicable). -/
noncomputable def speedOf (rows : List Row) (smooth : Bool) : List FV :=
  smoothIf smooth rows.length (speedRawOf rows)

/-- The `acceleration` column of the returned frame. -/
noncomputable def accelOf (rows : List Row) (smooth : Bool) : List FV :=
  smoothIf smooth rows.length (accelRawOf rows)

/-- The `angular_speed` column of the returned frame. -/
noncomputable def angularOf (rows : List Row) (smooth : Bool) : List FV :=
  smoothIf smooth rows.length (angularRawOf rows)

/-- The `rx_deg` column of the returned frame. -/
noncomputable def rxDegOf (rows : List Row) (smooth : Bool) : List FV :=
  smoothIf smooth rows.length (rxDegRawOf rows)

/-- The `ry_deg` column of the returned frame. -/
noncomputable def ryDegOf (rows : List Row) (smooth : Bool) : List FV :=
  smoothIf smooth rows.length (ryDegRawOf rows)

/-- The `rz_deg` column of the returned frame. -/
noncomputable def rzDegOf (rows : List Row) (smooth : Bool) : List FV :=
  smoothIf smooth rows.length (rzDegRawOf rows)

/-- The derived per-marker frame returned by `calculate_metrics` (columns
added to a copy of the stored marker data). -/
structure Derived where
  dt : List FV
  dx : List FV
  dy : List FV
  dz : List FV
  dist : List FV
  cumdist : List FV
  vx : List FV
  vy : List FV
  vz : List FV
  speed : List FV
  ax : List FV
  ay : List FV
  az : List FV
  accel : List FV
  drx : List FV
  dry : List FV
  drz : List FV
  omegaX : List FV
  omegaY : List FV
  omegaZ : List FV
  angularSpeed : List FV
  rxDeg : List FV
  ryDeg : List FV
  rzDeg : List FV

/-- All columns `calculate_metrics` computes for one marker's rows. -/
noncomputable def derivedOf (rows : List Row) (smooth : Bool) : Derived :=
  { dt := dtOf rows, dx := dxOf rows, dy := dyOf rows, dz := dzOf rows
    dist := distOf rows, cumdist := cumdistOf rows
    vx := vxOf rows, vy := vyOf rows, vz := vzOf rows
    speed := speedOf rows smooth
    ax := axOf rows, ay := ayOf rows, az := azOf rows
    accel := accelOf rows smooth
    drx := drxOf rows, dry := dryOf rows, drz := drzOf rows
    omegaX := omegaXOf rows, omegaY := omegaYOf rows, omegaZ := omegaZOf rows
    angularSpeed := angularOf rows smooth
    rxDeg := rxDegOf rows smooth, ryDeg := ryDegOf rows smooth
    rzDeg := rzDegOf rows smooth }

/-- Ordering of rows by timestamp (the `sort_values('timestamp')` key). -/
def rowLe (a b : Row) : Prop := a.timestamp ≤ b.timestamp

noncomputable instance : DecidableRel rowLe :=
  fun a b => Real.decidableLE a.timestamp b.timestamp

instance : IsTotal Row rowLe := ⟨fun a b => le_total a.timestamp b.timestamp⟩

instance : IsTrans Row rowLe := ⟨fun _ _ _ h1 h2 => le_trans h1 h2⟩

/-- Model of `marker_data.sort_values('timestamp')`. -/
noncomputable def sortByTs (rows : List Row) : List Row := List.insertionSort rowLe rows

/-- One marker's stored sequence after the bulk load:
`df[df['marker_id'] == marker_id]` sorted by timestamp. -/
noncomputable def seqForRecords (records : List Row) (mid : ℤ) : List Row :=
  sortByTs (records.filter (fun r => decide (r.marker_id = mid)))

/-- Model of `df['marker_id'].unique()`: the distinct marker ids of the
input (modelled with `List.dedup`, which keeps the last occurrence of each
id where pandas keeps the first; only the iteration order of the store
differs, the set of ids is the same). -/
def uniqueIds (records : List Row) : List ℤ := (records.map (fun r => r.marker_id)).dedup

/-- The grouped, per-marker-sorted store built by `load_data`. -/
noncomputable def groupAndSort (records : List Row) : List (ℤ × List Row) :=
  (uniqueIds records).map (fun mid => (mid, seqForRecords records mid))

/-- The in-memory image of a parsed CSV: its header columns and its rows. -/
structure CsvFrame where
  cols : List String
  rows : List Row

/-- The mutable state of a `TrajectoryAnalyzer`: `self.df` and
`self.markers`. -/
structure AnalyzerState where
  df : Option CsvFrame
  markers : List (ℤ × List Row)

/-- The `required_cols` list checked by `load_data` (note: `frame` is not
required). -/
def requiredCols : List String :=
  ["timestamp", "marker_id", "x", "y", "z", "rx", "ry", "rz"]

/-- Exceptions the analyzer could surface to a caller.  The modelled paths
never raise: a result of `Except.ok` mirrors a normal Python return. -/
inductive PyErr where
  | malformedRecord
  | notFound
  | invalidState

/-- Model of `TrajectoryAnalyzer.load_data`: `self.df` is assigned, then if any
required column is missing a warning is printed and the method returns with
`self.markers` untouched; otherwise the rows are grouped by `marker_id` and
each group is sorted by timestamp (`load_data` runs on the freshly
constructed analyzer, whose marker dict is empty). -/
noncomputable def loadData (frame : CsvFrame) (s : AnalyzerState) :
    Except PyErr AnalyzerState :=
  let missing := requiredCols.filter (fun c => ! frame.cols.contains c)
  if missing.isEmpty then
    Except.ok { df := some frame, markers := groupAndSort frame.rows }
  else
    Except.ok { df := some frame, markers := s.markers }

/-- Association lookup in the marker store (`self.markers[marker_id]`). -/
def lookupSeq : List (ℤ × List Row) → ℤ → Option (List Row)
  | [], _ => none
  | (k, v) :: rest, mid => if k = mid then some v else lookupSeq rest mid

/-- The results dictionary built by `calculate_metrics`: a requested marker
that is absent triggers `print("Warning: Marker ... not found")` followed by
`continue`, so it is skipped without error. -/
noncomputable def resultsOf (s : AnalyzerState) (mid? : Option ℤ) (smooth : Bool) :
    List (ℤ × Derived) :=
  match mid? with
  | some mid =>
    match lookupSeq s.markers mid with
    | none => []
    | some rows => [(mid, derivedOf rows smooth)]
  | none => s.markers.map (fun p => (p.1, derivedOf p.2 smooth))

/-- Model of `calculate_metrics` as seen by a caller watching for exceptions: it
always returns normally. -/
noncomputable def calcMetricsE (s : AnalyzerState) (mid? : Option ℤ) (smooth : Bool) :
    Except PyErr (List (ℤ × Derived)) :=
  Except.ok (resultsOf s mid? smooth)

/-- Model of `calculate_metrics` as a state transformer: the method reads
`self.markers[mid].copy()` and adds columns to the copy only, so the analyzer
state it leaves behind is the state it was given. -/
noncomputable def calcMetricsStep (s : AnalyzerState) (mid? : Option ℤ) (smooth : Bool) :
    AnalyzerState × List (ℤ × Derived) :=
  (s, resultsOf s mid? smooth)

/-- Model of `print_summary`'s effect on the analyzer state (it calls
`calculate_metrics` with the default `smooth=True` and prints). -/
noncomputable def printSummaryStep (s : AnalyzerState) (mid? : Option ℤ) : AnalyzerState :=
  (calcMetricsStep s mid? true).1

/-- Model of `Series.replace([np.inf, -np.inf], np.nan)`. -/
def replaceInfNan : FV → FV
  | .pinf => .nan
  | .ninf => .nan
  | v => v

/-- Model of `Series.dropna()`: removes NaN entries only. -/
def dropNa (l : List FV) : List FV := l.filter (fun v => ! v.isNan)

/-- Model of `speed_valid = df['speed'].replace([np.inf, -np.inf], np.nan).dropna()`. -/
def speedValid (l : List FV) : List FV := dropNa (l.map replaceInfNan)

/-- The finite payload of a value, if any. -/
def toFin : FV → Option ℝ
  | .fin x => some x
  | _ => none

/-- The finite real values of a series, in order. -/
def finiteVals (l : List FV) : List ℝ := l.filterMap toFin

/-- The real values the summary statistics are computed over. -/
def validVals (l : List FV) : List ℝ := finiteVals (speedValid l)

/-- Model of `speed_valid.mean()`. -/
noncomputable def speedMeanOf (l : List FV) : ℝ :=
  (validVals l).sum / (validVals l).length

/-- Maximum of a list of reals (`Series.max()` on a non-empty series). -/
noncomputable def listMax : List ℝ → Option ℝ
  | [] => none
  | x :: xs => match listMax xs with | none => some x | some m => some (max x m)

/-- Minimum of a list of reals (`Series.min()` on a non-empty series). -/
noncomputable def listMin : List ℝ → Option ℝ
  | [] => none
  | x :: xs => match listMin xs with | none => some x | some m => some (min x m)

/-- Model of `speed_valid.max()`. -/
noncomputable def speedMaxOf (l : List FV) : Option ℝ := listMax (validVals l)

/-- Model of `speed_valid.min()`. -/
noncomputable def speedMinOf (l : List FV) : Option ℝ := listMin (validVals l)

/-- Model of `speed_valid.std()` (pandas sample standard deviation, `ddof=1`). -/
noncomputable def speedStdOf (l : List FV) : ℝ :=
  Real.sqrt ((((validVals l).map (fun x => (x - speedMeanOf l) ^ 2)).sum) /
    ((validVals l).length - 1))

/-- One detection handed to `process_frame` by the pose estimator: a marker
id with its translation and rotation vectors. -/
structure Det where
  markerId : ℤ
  x : ℝ
  y : ℝ
  z : ℝ
  rx : ℝ
  ry : ℝ
  rz : ℝ

/-- The live tracker's recording state: `self.recording`,
`self.recording_start_time`, `self.trajectory_data`, `self.frame_count`. -/
structure TrackerState where
  recording : Bool
  recordingStartTime : Option ℝ
  trajectoryData : List Row
  frameCount : ℤ

/-- The SPACE-key handler in `run_live_tracking`: flips `self.recording`;
entering the recording state clears `self.trajectory_data`, resets
`self.frame_count` and captures `self.recording_start_time = time.time()`. -/
def toggleRecording (s : TrackerState) (now : ℝ) : TrackerState :=
  if s.recording then { s with recording := false }
  else { recording := true, recordingStartTime := some now,
         trajectoryData := [], frameCount := 0 }

/-- The record appended for one detection while recording: its timestamp is
`time.time() - self.recording_start_time`. -/
def detRow (now origin : ℝ) (fc : ℤ) (d : Det) : Row :=
  { timestamp := now - origin, frame := fc, marker_id := d.markerId,
    x := d.x, y := d.y, z := d.z, rx := d.rx, ry := d.ry, rz := d.rz }

/-- Model of `process_frame`'s effect on the tracker state: when at least one marker
is detected and `self.recording` is set, one row per detection is appended
with the session-relative timestamp; otherwise the stored data is left
untouched (the `none` origin branch is unreachable, since entering the
recording state always sets the origin). -/
def processFrameStep (s : TrackerState) (now : ℝ) (dets : List Det) : TrackerState :=
  if dets.isEmpty then s
  else if s.recording then
    match s.recordingStartTime with
    | some origin =>
        { s with trajectoryData :=
            s.trajectoryData ++ dets.map (detRow now origin s.frameCount) }
    | none => s
  else s

/-- Mathematical step distances between consecutive samples (the values the
`distance` column holds from index 1 on). -/
noncomputable def stepDists (rows : List Row) : List ℝ :=
  List.zipWith
    (fun p c => Real.sqrt ((c.x - p.x) ^ 2 + (c.y - p.y) ^ 2 + (c.z - p.z) ^ 2))
    rows rows.tail

/-- Running partial sums starting from `s`. -/
def psumsFrom (s : ℝ) : List ℝ → List ℝ
  | [] => []
  | d :: ds => (s + d) :: psumsFrom (s + d) ds

/-- Running partial sums of a list of reals. -/
def psums (l : List ℝ) : List ℝ := psumsFrom 0 l

/-- The first sample of the spec's two-sample example: marker 7 at the
origin at timestamp 0. -/
def rowA : Row :=
  { timestamp := 0, frame := 0, marker_id := 7, x := 0, y := 0, z := 0,
    rx := 0, ry := 0, rz := 0 }

/-- The second sample of the spec's two-sample example: marker 7 at (1,0,0)
at timestamp 1. -/
def rowB : Row :=
  { timestamp := 1, frame := 1, marker_id := 7, x := 1, y := 0, z := 0,
    rx := 0, ry := 0, rz := 0 }

/-- The spec's two-sample example: marker 7 at timestamps 0 and 1, moving
from the origin to (1,0,0). -/
def twoSampleRows : List Row := [rowA, rowB]

/-- A stationary sample at timestamp 2 (used six times over to exercise the
dt == 0 path together with smoothing). -/
def stillRow : Row :=
  { timestamp := 2, frame := 0, marker_id := 5, x := 0, y := 0, z := 0,
    rx := 0, ry := 0, rz := 0 }

/-- Six samples sharing timestamp 2.0 and a fixed pose: every dt is zero and
the series is long enough for the default smoothing to fire. -/
def sixStillRows : List Row :=
  [stillRow, stillRow, stillRow, stillRow, stillRow, stillRow]

/-- Five samples of marker 3 at timestamps 0..4 with x positions 0,1,3,6,10:
the speed column is one NaN (index 0) followed by the four finite values
1, 2, 3, 4. -/
def fiveRows : List Row :=
  [{ timestamp := 0, frame := 0, marker_id := 3, x := 0, y := 0, z := 0,
     rx := 0, ry := 0, rz := 0 },
   { timestamp := 1, frame := 1, marker_id := 3, x := 1, y := 0, z := 0,
     rx := 0, ry := 0, rz := 0 },
   { timestamp := 2, frame := 2, marker_id := 3, x := 3, y := 0, z := 0,
     rx := 0, ry := 0, rz := 0 },
   { timestamp := 3, frame := 3, marker_id := 3, x := 6, y := 0, z := 0,
     rx := 0, ry := 0, rz := 0 },
   { timestamp := 4, frame := 4, marker_id := 3, x := 10, y := 0, z := 0,
     rx := 0, ry := 0, rz := 0 }]

/-- A CSV header from which the `rz` column is missing. -/
def missingRzCols : List String :=
  ["timestamp", "frame", "marker_id", "x", "y", "z", "rx", "ry"]

/-- A parsed CSV missing the `rz` column. -/
def missingRzFrame : CsvFrame := { cols := missingRzCols, rows := [] }

/-- An analyzer state already holding data for marker 7. -/
def storeWithMarker7 : AnalyzerState := { df := none, markers := [(7, twoSampleRows)] }

/-- Three records of marker 7 arriving out of timestamp order. -/
def outOfOrderRecords : List Row :=
  [{ timestamp := 3, frame := 2, marker_id := 7, x := 2, y := 0, z := 0,
     rx := 0, ry := 0, rz := 0 },
   { timestamp := 1, frame := 0, marker_id := 7, x := 0, y := 0, z := 0,
     rx := 0, ry := 0, rz := 0 },
   { timestamp := 2, frame := 1, marker_id := 7, x := 1, y := 0, z := 0,
     rx := 0, ry := 0, rz := 0 }]

/-- An idle tracker that still holds data from a previous episode. -/
def idleTracker : TrackerState :=
  { recording := false, recordingStartTime := some 4, trajectoryData := [stillRow],
    frameCount := 9 }

/-- A recording tracker with origin 4 and one stored sample. -/
def recTracker : TrackerState :=
  { recording := true, recordingStartTime := some 4, trajectoryData := [stillRow],
    frameCount := 9 }

/-- One detection of marker 2 handed to `process_frame`. -/
def oneDet : Det := { markerId := 2, x := 1, y := 2, z := 3, rx := 0, ry := 0, rz := 0 }

theorem zipWith_getElem? {α β γ : Type} {f : α → β → γ} :
    ∀ (xs : List α) (ys : List β) (i : ℕ) (a : α) (b : β),
      xs[i]? = some a → ys[i]? = some b →
      (List.zipWith f xs ys)[i]? = some (f a b) := by
  intro xs
  induction xs with
  | nil => intro ys i a b h1 _; simp at h1
  | cons x xt ih =>
    intro ys i a b h1 h2
    cases ys with
    | nil => simp at h2
    | cons y yt =>
      cases i with
      | zero =>
        simp at h1 h2
        simp [h1, h2]
      | succ n =>
        simp only [List.getElem?_cons_succ] at h1 h2
        simp only [List.zipWith_cons_cons, List.getElem?_cons_succ]
        exact ih yt n a b h1 h2

theorem zip3W_getElem? {α β γ δ : Type} {f : α → β → γ → δ} :
    ∀ (xs : List α) (ys : List β) (zs : List γ) (i : ℕ) (a : α) (b : β) (c : γ),
      xs[i]? = some a → ys[i]? = some b → zs[i]? = some c →
      (zip3W f xs ys zs)[i]? = some (f a b c) := by
  intro xs
  induction xs with
  | nil => intro ys zs i a b c h1 _ _; simp at h1
  | cons x xt ih =>
    intro ys zs i a b c h1 h2 h3
    cases ys with
    | nil => simp at h2
    | cons y yt =>
      cases zs with
      | nil => simp at h3
      | cons z zt =>
        cases i with
        | zero =>
          simp at h1 h2 h3
          simp [zip3W, h1, h2, h3]
        | succ n =>
          simp only [List.getElem?_cons_succ] at h1 h2 h3
          simp only [zip3W, List.getElem?_cons_succ]
          exact ih yt zt n a b c h1 h2 h3

theorem diffL_getElem?_succ {α : Type} (f : α → α → FV) (xs : List α) (i : ℕ) (a b : α)
    (h1 : xs[i]? = some a) (h2 : xs[i + 1]? = some b) :
    (diffL f xs)[i + 1]? = some (f a b) := by
  cases xs with
  | nil => simp at h1
  | cons x xt =>
    have h2t : xt[i]? = some b := by simpa using h2
    show (FV.nan :: List.zipWith f (x :: xt) xt)[i + 1]? = some (f a b)
    rw [List.getElem?_cons_succ]
    exact zipWith_getElem? (x :: xt) xt i a b h1 h2t

theorem diffL_getElem?_zero {α : Type} (f : α → α → FV) (xs : List α) (h : xs ≠ []) :
    (diffL f xs)[0]? = some FV.nan := by
  cases xs with
  | nil => exact absurd rfl h
  | cons x xt => simp [diffL]

theorem diffL_length {α : Type} (f : α → α → FV) (xs : List α) :
    (diffL f xs).length = xs.length := by
  cases xs with
  | nil => rfl
  | cons x xt => simp [diffL]

theorem dtOf_length (rows : List Row) : (dtOf rows).length = rows.length :=
  diffL_length _ rows

theorem vxOf_length (rows : List Row) : (vxOf rows).length = rows.length := by
  simp [vxOf, List.length_zipWith, dxOf, dtOf, diffL_length]

theorem vyOf_length (rows : List Row) : (vyOf rows).length = rows.length := by
  simp [vyOf, List.length_zipWith, dyOf, dtOf, diffL_length]

theorem vzOf_length (rows : List Row) : (vzOf rows).length = rows.length := by
  simp [vzOf, List.length_zipWith, dzOf, dtOf, diffL_length]

theorem FV.add_left_notFin (a b : FV) (h : a.isFin = false) :
    (a.add b).isFin = false := by
  cases a <;> cases b <;> simp_all [FV.add, FV.isFin]

theorem FV.sq_notFin (a : FV) (h : a.isFin = false) : a.sq.isFin = false := by
  cases a <;> simp_all [FV.sq, FV.isFin]

theorem FV.sqrt_notFin (a : FV) (h : a.isFin = false) : a.sqrt.isFin = false := by
  cases a <;> simp_all [FV.sqrt, FV.isFin]

theorem FV.sub_left_notFin (a b : FV) (h : a.isFin = false) :
    (a.sub b).isFin = false := FV.add_left_notFin a b.neg h

theorem FV.div_left_notFin (a b : FV) (h : a.isFin = false) :
    (a.div b).isFin = false := by
  cases a <;> cases b <;> simp_all [FV.div, FV.isFin] <;> split_ifs <;>
    simp [FV.isFin]

theorem FV.div_fin_zero_notFin (x : ℝ) :
    ((FV.fin x).div (FV.fin 0)).isFin = false := by
  simp only [FV.div, if_pos rfl]
  split_ifs <;> simp [FV.isFin]

theorem mag3_left_notFin (a b c : FV) (h : a.isFin = false) :
    (mag3 a b c).isFin = false :=
  FV.sqrt_notFin _ (FV.add_left_notFin _ _ (FV.add_left_notFin _ _ (FV.sq_notFin a h)))

theorem FV.sub_nan_right (a : FV) : a.sub FV.nan = FV.nan := by
  cases a <;> simp [FV.sub, FV.neg, FV.add]

theorem FV.div_nan_left (b : FV) : FV.nan.div b = FV.nan := by
  cases b <;> simp [FV.div]

theorem FV.add_nan_left (b : FV) : FV.nan.add b = FV.nan := by
  cases b <;> simp [FV.add]

theorem FV.sq_nan : FV.nan.sq = FV.nan := rfl

theorem FV.sqrt_nan : FV.nan.sqrt = FV.nan := by simp [FV.sqrt]

theorem mag3_nan : mag3 FV.nan FV.nan FV.nan = FV.nan := by
  simp [mag3, FV.sq_nan, FV.add_nan_left, FV.sqrt_nan]

theorem mag3_fin (u v w : ℝ) :
    mag3 (FV.fin u) (FV.fin v) (FV.fin w) =
      FV.fin (Real.sqrt (u ^ 2 + v ^ 2 + w ^ 2)) := by
  have hnn : (0:ℝ) ≤ u ^ 2 + v ^ 2 + w ^ 2 := by positivity
  simp [mag3, FV.sq, FV.add, FV.sqrt, not_lt.mpr hnn]

theorem cumsumGo_fin_map (l : List ℝ) :
    ∀ s : ℝ, cumsumGo (FV.fin s) (l.map FV.fin) = (psumsFrom s l).map FV.fin := by
  induction l with
  | nil => intro s; simp [cumsumGo, psumsFrom]
  | cons d ds ih =>
    intro s
    simp only [List.map_cons, cumsumGo, FV.add, psumsFrom]
    exact congrArg _ (ih (s + d))

theorem cumsum_nan_cons (l : List ℝ) :
    cumsum (FV.nan :: l.map FV.fin) = FV.nan :: (psums l).map FV.fin := by
  simp only [cumsum, cumsumGo, psums]
  exact congrArg _ (cumsumGo_fin_map l 0)

theorem psumsFrom_chain (l : List ℝ) :
    ∀ s : ℝ, (∀ d ∈ l, 0 ≤ d) → List.Chain (· ≤ ·) s (psumsFrom s l) := by
  induction l with
  | nil => intro s _; exact List.Chain.nil
  | cons d ds ih =>
    intro s h
    simp only [psumsFrom]
    exact List.Chain.cons (le_add_of_nonneg_right (h d (by simp)))
      (ih (s + d) (fun e he => h e (by simp [he])))

theorem zip3W_zipWith_fuse {α β : Type} (g1 g2 g3 : α → β → FV) (G : FV → FV → FV → FV) :
    ∀ (xs : List α) (ys : List β),
      zip3W G (List.zipWith g1 xs ys) (List.zipWith g2 xs ys) (List.zipWith g3 xs ys) =
        List.zipWith (fun a b => G (g1 a b) (g2 a b) (g3 a b)) xs ys := by
  intro xs
  induction xs with
  | nil => intro ys; simp [zip3W]
  | cons x xt ih =>
    intro ys
    cases ys with
    | nil => simp [zip3W]
    | cons y yt => simp [zip3W, ih yt]

theorem distOf_char (rows : List Row) (h : rows ≠ []) :
    distOf rows = FV.nan :: (stepDists rows).map FV.fin := by
  cases rows with
  | nil => exact absurd rfl h
  | cons r rest =>
    simp only [distOf, dxOf, dyOf, dzOf, diffL, zip3W, mag3_nan]
    rw [zip3W_zipWith_fuse]
    congr 1
    simp only [stepDists, List.tail_cons, List.map_zipWith]
    have hfun : (fun (p c : Row) =>
        mag3 (FV.fin (c.x - p.x)) (FV.fin (c.y - p.y)) (FV.fin (c.z - p.z))) =
        fun (p c : Row) =>
          FV.fin (Real.sqrt ((c.x - p.x) ^ 2 + (c.y - p.y) ^ 2 + (c.z - p.z) ^ 2)) := by
      funext p c
      exact mag3_fin _ _ _
    rw [hfun]

theorem cumdistOf_char (rows : List Row) (h : rows ≠ []) :
    cumdistOf rows = FV.nan :: (psums (stepDists rows)).map FV.fin := by
  rw [cumdistOf, distOf_char rows h, cumsum_nan_cons]

theorem mem_zipWith_exists {α β γ : Type} {g : α → β → γ} :
    ∀ (xs : List α) (ys : List β) (d : γ), d ∈ List.zipWith g xs ys → ∃ a b, d = g a b := by
  intro xs
  induction xs with
  | nil => intro ys d h; simp at h
  | cons x xt ih =>
    intro ys d h
    cases ys with
    | nil => simp at h
    | cons y yt =>
      simp only [List.zipWith_cons_cons, List.mem_cons] at h
      rcases h with h | h
      · exact ⟨x, y, h⟩
      · exact ih yt d h

theorem stepDists_nonneg (rows : List Row) (d : ℝ) (hd : d ∈ stepDists rows) : 0 ≤ d := by
  simp only [stepDists] at hd
  obtain ⟨p, c, heq⟩ := mem_zipWith_exists _ _ _ hd
  rw [heq]
  exact Real.sqrt_nonneg _

theorem FV.div_zero_notFin (a : FV) : (a.div (FV.fin 0)).isFin = false := by
  cases a
  case fin x => exact FV.div_fin_zero_notFin x
  all_goals simp [FV.div, FV.isFin]

theorem smoothIf_off (smooth : Bool) (n : ℕ) (chan : List FV)
    (h : smooth = false ∨ n ≤ 5) : smoothIf smooth n chan = chan := by
  rw [smoothIf, if_neg]
  rintro ⟨hs, hn⟩
  rcases h with h | h
  · rw [h] at hs; exact Bool.false_ne_true hs
  · exact absurd hn (not_lt.mpr h)

theorem dtOf_getElem?_succ (rows : List Row) (i : ℕ) (a b : Row)
    (h1 : rows[i]? = some a) (h2 : rows[i + 1]? = some b) :
    (dtOf rows)[i + 1]? = some (FV.fin (b.timestamp - a.timestamp)) :=
  diffL_getElem?_succ _ rows i a b h1 h2

theorem vxOf_getElem?_succ (rows : List Row) (i : ℕ) (a b : Row)
    (h1 : rows[i]? = some a) (h2 : rows[i + 1]? = some b) :
    (vxOf rows)[i + 1]? =
      some ((FV.fin (b.x - a.x)).div (FV.fin (b.timestamp - a.timestamp))) :=
  zipWith_getElem? _ _ _ _ _ (diffL_getElem?_succ _ rows i a b h1 h2)
    (diffL_getElem?_succ _ rows i a b h1 h2)

theorem vyOf_getElem?_succ (rows : List Row) (i : ℕ) (a b : Row)
    (h1 : rows[i]? = some a) (h2 : rows[i + 1]? = some b) :
    (vyOf rows)[i + 1]? =
      some ((FV.fin (b.y - a.y)).div (FV.fin (b.timestamp - a.timestamp))) :=
  zipWith_getElem? _ _ _ _ _ (diffL_getElem?_succ _ rows i a b h1 h2)
    (diffL_getElem?_succ _ rows i a b h1 h2)

theorem vzOf_getElem?_succ (rows : List Row) (i : ℕ) (a b : Row)
    (h1 : rows[i]? = some a) (h2 : rows[i + 1]? = some b) :
    (vzOf rows)[i + 1]? =
      some ((FV.fin (b.z - a.z)).div (FV.fin (b.timestamp - a.timestamp))) :=
  zipWith_getElem? _ _ _ _ _ (diffL_getElem?_succ _ rows i a b h1 h2)
    (diffL_getElem?_succ _ rows i a b h1 h2)

theorem omegaXOf_getElem?_succ (rows : List Row) (i : ℕ) (a b : Row)
    (h1 : rows[i]? = some a) (h2 : rows[i + 1]? = some b) :
    (omegaXOf rows)[i + 1]? =
      some ((FV.fin (b.rx - a.rx)).div (FV.fin (b.timestamp - a.timestamp))) :=
  zipWith_getElem? _ _ _ _ _ (diffL_getElem?_succ _ rows i a b h1 h2)
    (diffL_getElem?_succ _ rows i a b h1 h2)

theorem omegaYOf_getElem?_succ (rows : List Row) (i : ℕ) (a b : Row)
    (h1 : rows[i]? = some a) (h2 : rows[i + 1]? = some b) :
    (omegaYOf rows)[i + 1]? =
      some ((FV.fin (b.ry - a.ry)).div (FV.fin (b.timestamp - a.timestamp))) :=
  zipWith_getElem? _ _ _ _ _ (diffL_getElem?_succ _ rows i a b h1 h2)
    (diffL_getElem?_succ _ rows i a b h1 h2)

theorem omegaZOf_getElem?_succ (rows : List Row) (i : ℕ) (a b : Row)
    (h1 : rows[i]? = some a) (h2 : rows[i + 1]? = some b) :
    (omegaZOf rows)[i + 1]? =
      some ((FV.fin (b.rz - a.rz)).div (FV.fin (b.timestamp - a.timestamp))) :=
  zipWith_getElem? _ _ _ _ _ (diffL_getElem?_succ _ rows i a b h1 h2)
    (diffL_getElem?_succ _ rows i a b h1 h2)

theorem vxOf_getElem?_zero (rows : List Row) (h : rows ≠ []) :
    (vxOf rows)[0]? = some FV.nan := by
  have hx := diffL_getElem?_zero (fun p c => FV.fin (c.x - p.x)) rows h
  have ht := diffL_getElem?_zero (fun p c => FV.fin (c.timestamp - p.timestamp)) rows h
  have hz := @zipWith_getElem? FV FV FV FV.div _ _ 0 _ _ hx ht
  simpa [vxOf, dxOf, dtOf, FV.div] using hz

theorem vyOf_getElem?_zero (rows : List Row) (h : rows ≠ []) :
    (vyOf rows)[0]? = some FV.nan := by
  have hy := diffL_getElem?_zero (fun p c => FV.fin (c.y - p.y)) rows h
  have ht := diffL_getElem?_zero (fun p c => FV.fin (c.timestamp - p.timestamp)) rows h
  have hz := @zipWith_getElem? FV FV FV FV.div _ _ 0 _ _ hy ht
  simpa [vyOf, dyOf, dtOf, FV.div] using hz

theorem vzOf_getElem?_zero (rows : List Row) (h : rows ≠ []) :
    (vzOf rows)[0]? = some FV.nan := by
  have hv := diffL_getElem?_zero (fun p c => FV.fin (c.z - p.z)) rows h
  have ht := diffL_getElem?_zero (fun p c => FV.fin (c.timestamp - p.timestamp)) rows h
  have hz := @zipWith_getElem? FV FV FV FV.div _ _ 0 _ _ hv ht
  simpa [vzOf, dzOf, dtOf, FV.div] using hz

theorem speedRawOf_getElem? (rows : List Row) (i : ℕ) (u v w : FV)
    (hx : (vxOf rows)[i]? = some u) (hy : (vyOf rows)[i]? = some v)
    (hz : (vzOf rows)[i]? = some w) :
    (speedRawOf rows)[i]? = some (mag3 u v w) :=
  zip3W_getElem? _ _ _ _ _ _ _ hx hy hz

theorem angularRawOf_getElem? (rows : List Row) (i : ℕ) (u v w : FV)
    (hx : (omegaXOf rows)[i]? = some u) (hy : (omegaYOf rows)[i]? = some v)
    (hz : (omegaZOf rows)[i]? = some w) :
    (angularRawOf rows)[i]? = some (mag3 u v w) :=
  zip3W_getElem? _ _ _ _ _ _ _ hx hy hz

theorem accelRawOf_getElem? (rows : List Row) (i : ℕ) (u v w : FV)
    (hx : (axOf rows)[i]? = some u) (hy : (ayOf rows)[i]? = some v)
    (hz : (azOf rows)[i]? = some w) :
    (accelRawOf rows)[i]? = some (mag3 u v w) :=
  zip3W_getElem? _ _ _ _ _ _ _ hx hy hz

theorem axOf_getElem?_succ (rows : List Row) (i : ℕ) (pv cv dt : FV)
    (h1 : (vxOf rows)[i]? = some pv) (h2 : (vxOf rows)[i + 1]? = some cv)
    (ht : (dtOf rows)[i + 1]? = some dt) :
    (axOf rows)[i + 1]? = some ((cv.sub pv).div dt) :=
  zipWith_getElem? _ _ _ _ _ (diffL_getElem?_succ _ (vxOf rows) i pv cv h1 h2) ht

theorem ayOf_getElem?_succ (rows : List Row) (i : ℕ) (pv cv dt : FV)
    (h1 : (vyOf rows)[i]? = some pv) (h2 : (vyOf rows)[i + 1]? = some cv)
    (ht : (dtOf rows)[i + 1]? = some dt) :
    (ayOf rows)[i + 1]? = some ((cv.sub pv).div dt) :=
  zipWith_getElem? _ _ _ _ _ (diffL_getElem?_succ _ (vyOf rows) i pv cv h1 h2) ht

theorem azOf_getElem?_succ (rows : List Row) (i : ℕ) (pv cv dt : FV)
    (h1 : (vzOf rows)[i]? = some pv) (h2 : (vzOf rows)[i + 1]? = some cv)
    (ht : (dtOf rows)[i + 1]? = some dt) :
    (azOf rows)[i + 1]? = some ((cv.sub pv).div dt) :=
  zipWith_getElem? _ _ _ _ _ (diffL_getElem?_succ _ (vzOf rows) i pv cv h1 h2) ht

/-- C1: for every per-marker sequence of at least two samples, at each index
i >= 1 the derivation computes `dt = timestamp[i] - timestamp[i-1]`, the
velocity components as the translation deltas divided by dt, and the speed
as `sqrt(vx^2 + vy^2 + vz^2)` (the speed channel shows this raw value
whenever the smoothing pass does not overwrite it, i.e. when smoothing is
disabled or the series is no longer than the window); in particular, on the
two-sample input with timestamps 0, 1 and translations (0,0,0), (1,0,0) the
speed at index 1 is 1.0 and the cumulative distance at index 1 is 1.0. -/
theorem c1_velocity_speed_formulas :
    (∀ (rows : List Row) (smooth : Bool) (i : ℕ) (a b : Row),
      rows[i]? = some a → rows[i + 1]? = some b →
      (dtOf rows)[i + 1]? = some (FV.fin (b.timestamp - a.timestamp)) ∧
      (vxOf rows)[i + 1]? =
        some ((FV.fin (b.x - a.x)).div (FV.fin (b.timestamp - a.timestamp))) ∧
      (vyOf rows)[i + 1]? =
        some ((FV.fin (b.y - a.y)).div (FV.fin (b.timestamp - a.timestamp))) ∧
      (vzOf rows)[i + 1]? =
        some ((FV.fin (b.z - a.z)).div (FV.fin (b.timestamp - a.timestamp))) ∧
      (smooth = false ∨ rows.length ≤ 5 →
        (speedOf rows smooth)[i + 1]? =
          some (mag3
            ((FV.fin (b.x - a.x)).div (FV.fin (b.timestamp - a.timestamp)))
            ((FV.fin (b.y - a.y)).div (FV.fin (b.timestamp - a.timestamp)))
            ((FV.fin (b.z - a.z)).div (FV.fin (b.timestamp - a.timestamp)))))) ∧
    (speedOf twoSampleRows true)[1]? = some (FV.fin 1) ∧
    (cumdistOf twoSampleRows)[1]? = some (FV.fin 1) := by
  refine ⟨?_, ?_, ?_⟩
  · intro rows smooth i a b h1 h2
    refine ⟨dtOf_getElem?_succ rows i a b h1 h2,
      vxOf_getElem?_succ rows i a b h1 h2,
      vyOf_getElem?_succ rows i a b h1 h2,
      vzOf_getElem?_succ rows i a b h1 h2, ?_⟩
    intro hoff
    rw [speedOf, smoothIf_off smooth rows.length _ hoff]
    exact speedRawOf_getElem? rows (i + 1) _ _ _
      (vxOf_getElem?_succ rows i a b h1 h2)
      (vyOf_getElem?_succ rows i a b h1 h2)
      (vzOf_getElem?_succ rows i a b h1 h2)
  · norm_num [speedOf, smoothIf, twoSampleRows, rowA, rowB, speedRawOf, vxOf, vyOf,
      vzOf, dxOf, dyOf, dzOf, dtOf, diffL, zip3W, FV.div, mag3, FV.sq, FV.add,
      FV.sqrt, Real.sqrt_one]
  · norm_num [cumdistOf, twoSampleRows, rowA, rowB, distOf, cumsum, cumsumGo, dxOf,
      dyOf, dzOf, diffL, zip3W, mag3, FV.sq, FV.add, FV.sqrt, Real.sqrt_one]

/-- Witness for C1: the general formulas instantiated on the two-sample
example at index 1. -/
theorem c1_velocity_speed_formulas_witness :
    (twoSampleRows[0]? = some rowA ∧ twoSampleRows[1]? = some rowB) ∧
    (dtOf twoSampleRows)[1]? = some (FV.fin (rowB.timestamp - rowA.timestamp)) ∧
    (vxOf twoSampleRows)[1]? =
      some ((FV.fin (rowB.x - rowA.x)).div (FV.fin (rowB.timestamp - rowA.timestamp))) := by
  have h := c1_velocity_speed_formulas.1 twoSampleRows true 0 rowA rowB (by
    simp [twoSampleRows]) (by simp [twoSampleRows])
  exact ⟨⟨by simp [twoSampleRows], by simp [twoSampleRows]⟩, h.1, h.2.1⟩

/-- C2 counterexample: on the two-sample example, `cumulative_distance` at
index 0 is NaN (pandas `diff` makes `distance[0]` NaN and `cumsum` keeps it),
not 0 as the claim states. -/
theorem c2_cumdist_index0_is_nan :
    (cumdistOf twoSampleRows)[0]? = some FV.nan ∧ FV.nan ≠ FV.fin 0 := by
  constructor
  · norm_num [cumdistOf, twoSampleRows, rowA, rowB, distOf, cumsum, cumsumGo, dxOf,
      dyOf, dzOf, diffL, zip3W, mag3, FV.sq, FV.add, FV.sqrt]
  · intro h
    exact FV.noConfusion h

/-- C2 (amended): for every non-empty per-marker sequence,
`cumulative_distance[0]` is the NaN sentinel (not 0), and from index 1 on the
column holds exactly the running sums of the step distances
`sqrt(dx^2+dy^2+dz^2)`; that running-sum list starts at or above 0 and is
non-decreasing, so `cumulative_distance` is non-decreasing over the indices
where it is defined. -/
theorem c2_cumdist_running_sum :
    ∀ rows : List Row, rows ≠ [] →
      cumdistOf rows = FV.nan :: (psums (stepDists rows)).map FV.fin ∧
      List.Chain (· ≤ ·) (0 : ℝ) (psums (stepDists rows)) := by
  intro rows h
  exact ⟨cumdistOf_char rows h,
    psumsFrom_chain (stepDists rows) 0 (fun d hd => stepDists_nonneg rows d hd)⟩

/-- Witness for C2 (amended): its instance on the two-sample example. -/
theorem c2_cumdist_running_sum_witness :
    twoSampleRows ≠ [] ∧
    cumdistOf twoSampleRows = FV.nan :: (psums (stepDists twoSampleRows)).map FV.fin ∧
    List.Chain (· ≤ ·) (0 : ℝ) (psums (stepDists twoSampleRows)) := by
  have h : twoSampleRows ≠ [] := by simp [twoSampleRows]
  exact ⟨h, (c2_cumdist_running_sum twoSampleRows h).1,
    (c2_cumdist_running_sum twoSampleRows h).2⟩

/-- C3 (amended): for every per-marker sequence with two consecutive samples
sharing a timestamp (dt == 0), the derived velocity components, angular
velocity components and acceleration components at that index are non-finite
sentinels (these channels are never smoothed), and the speed, acceleration
and angular-speed magnitudes there are non-finite whenever the smoothing
pass does not overwrite them (smoothing disabled, or series no longer than
the window); when smoothing does fire, `fillna(0)` replaces NaN with zero in
the smoothed channels before filtering, so the claim's "never silently
replaces them with zero in any output channel" fails there (the raw values
are kept in the `*_raw` columns). -/
theorem c3_dt_zero_nonfinite :
    ∀ (rows : List Row) (i : ℕ) (a b : Row) (smooth : Bool),
      rows[i]? = some a → rows[i + 1]? = some b → b.timestamp = a.timestamp →
      (∃ v, (vxOf rows)[i + 1]? = some v ∧ v.isFin = false) ∧
      (∃ v, (vyOf rows)[i + 1]? = some v ∧ v.isFin = false) ∧
      (∃ v, (vzOf rows)[i + 1]? = some v ∧ v.isFin = false) ∧
      (∃ v, (omegaXOf rows)[i + 1]? = some v ∧ v.isFin = false) ∧
      (∃ v, (omegaYOf rows)[i + 1]? = some v ∧ v.isFin = false) ∧
      (∃ v, (omegaZOf rows)[i + 1]? = some v ∧ v.isFin = false) ∧
      (∃ v, (axOf rows)[i + 1]? = some v ∧ v.isFin = false) ∧
      (∃ v, (ayOf rows)[i + 1]? = some v ∧ v.isFin = false) ∧
      (∃ v, (azOf rows)[i + 1]? = some v ∧ v.isFin = false) ∧
      (smooth = false ∨ rows.length ≤ 5 →
        (∃ v, (speedOf rows smooth)[i + 1]? = some v ∧ v.isFin = false) ∧
        (∃ v, (angularOf rows smooth)[i + 1]? = some v ∧ v.isFin = false) ∧
        (∃ v, (accelOf rows smooth)[i + 1]? = some v ∧ v.isFin = false)) := by
  intro rows i a b smooth h1 h2 hts
  have hts0 : b.timestamp - a.timestamp = 0 := by rw [hts]; ring
  have hdt := dtOf_getElem?_succ rows i a b h1 h2
  rw [hts0] at hdt
  have hvx := vxOf_getElem?_succ rows i a b h1 h2
  have hvy := vyOf_getElem?_succ rows i a b h1 h2
  have hvz := vzOf_getElem?_succ rows i a b h1 h2
  have hox := omegaXOf_getElem?_succ rows i a b h1 h2
  have hoy := omegaYOf_getElem?_succ rows i a b h1 h2
  have hoz := omegaZOf_getElem?_succ rows i a b h1 h2
  rw [hts0] at hvx hvy hvz hox hoy hoz
  have hvxn := FV.div_zero_notFin (FV.fin (b.x - a.x))
  have hvyn := FV.div_zero_notFin (FV.fin (b.y - a.y))
  have hvzn := FV.div_zero_notFin (FV.fin (b.z - a.z))
  have hoxn := FV.div_zero_notFin (FV.fin (b.rx - a.rx))
  have hoyn := FV.div_zero_notFin (FV.fin (b.ry - a.ry))
  have hozn := FV.div_zero_notFin (FV.fin (b.rz - a.rz))
  have hlen : i + 1 < rows.length := by
    by_contra hc
    rw [List.getElem?_eq_none (not_lt.mp hc)] at h2
    exact Option.noConfusion h2
  have hix : i < (vxOf rows).length := by rw [vxOf_length]; omega
  have hiy : i < (vyOf rows).length := by rw [vyOf_length]; omega
  have hiz : i < (vzOf rows).length := by rw [vzOf_length]; omega
  obtain ⟨pvx, hpvx⟩ : ∃ v, (vxOf rows)[i]? = some v :=
    ⟨(vxOf rows)[i], List.getElem?_eq_getElem hix⟩
  obtain ⟨pvy, hpvy⟩ : ∃ v, (vyOf rows)[i]? = some v :=
    ⟨(vyOf rows)[i], List.getElem?_eq_getElem hiy⟩
  obtain ⟨pvz, hpvz⟩ : ∃ v, (vzOf rows)[i]? = some v :=
    ⟨(vzOf rows)[i], List.getElem?_eq_getElem hiz⟩
  have hax := axOf_getElem?_succ rows i pvx _ (FV.fin 0) hpvx hvx hdt
  have hay := ayOf_getElem?_succ rows i pvy _ (FV.fin 0) hpvy hvy hdt
  have haz := azOf_getElem?_succ rows i pvz _ (FV.fin 0) hpvz hvz hdt
  have haxn := FV.div_left_notFin _ (FV.fin 0) (FV.sub_left_notFin _ pvx hvxn)
  have hayn := FV.div_left_notFin _ (FV.fin 0) (FV.sub_left_notFin _ pvy hvyn)
  have hazn := FV.div_left_notFin _ (FV.fin 0) (FV.sub_left_notFin _ pvz hvzn)
  refine ⟨⟨_, hvx, hvxn⟩, ⟨_, hvy, hvyn⟩, ⟨_, hvz, hvzn⟩, ⟨_, hox, hoxn⟩,
    ⟨_, hoy, hoyn⟩, ⟨_, hoz, hozn⟩, ⟨_, hax, haxn⟩, ⟨_, hay, hayn⟩,
    ⟨_, haz, hazn⟩, ?_⟩
  intro hoff
  have hsp : (speedOf rows smooth)[i + 1]? =
      some (mag3 ((FV.fin (b.x - a.x)).div (FV.fin 0))
        ((FV.fin (b.y - a.y)).div (FV.fin 0))
        ((FV.fin (b.z - a.z)).div (FV.fin 0))) := by
    rw [speedOf, smoothIf_off smooth rows.length _ hoff]
    exact speedRawOf_getElem? rows (i + 1) _ _ _ hvx hvy hvz
  have hang : (angularOf rows smooth)[i + 1]? =
      some (mag3 ((FV.fin (b.rx - a.rx)).div (FV.fin 0))
        ((FV.fin (b.ry - a.ry)).div (FV.fin 0))
        ((FV.fin (b.rz - a.rz)).div (FV.fin 0))) := by
    rw [angularOf, smoothIf_off smooth rows.length _ hoff]
    exact angularRawOf_getElem? rows (i + 1) _ _ _ hox hoy hoz
  have hacc : (accelOf rows smooth)[i + 1]? =
      some (mag3 ((((FV.fin (b.x - a.x)).div (FV.fin 0)).sub pvx).div (FV.fin 0))
        ((((FV.fin (b.y - a.y)).div (FV.fin 0)).sub pvy).div (FV.fin 0))
        ((((FV.fin (b.z - a.z)).div (FV.fin 0)).sub pvz).div (FV.fin 0))) := by
    rw [accelOf, smoothIf_off smooth rows.length _ hoff]
    exact accelRawOf_getElem? rows (i + 1) _ _ _ hax hay haz
  exact ⟨⟨_, hsp, mag3_left_notFin _ _ _ hvxn⟩,
    ⟨_, hang, mag3_left_notFin _ _ _ hoxn⟩,
    ⟨_, hacc, mag3_left_notFin _ _ _ haxn⟩⟩

/-- C3 counterexample: six samples all sharing timestamp 2.0 with a fixed
pose go through the default derivation (smooth=True, length 6 > window 5);
dt at index 1 is 0, yet the returned speed at index 1 is the finite value 0:
`fillna(0)` turned the NaN sentinel into zero before the smoothing filter,
refuting both the non-finite-at-that-index and the
never-replaced-with-zero parts of the claim. -/
theorem c3_smoothing_zero_fills :
    (dtOf sixStillRows)[1]? = some (FV.fin 0) ∧
    (speedOf sixStillRows true)[1]? = some (FV.fin 0) ∧
    (FV.fin 0).isFin = true := by
  refine ⟨?_, ?_, rfl⟩
  · norm_num [dtOf, diffL, sixStillRows, stillRow]
  · norm_num [speedOf, smoothIf, sixStillRows, stillRow, speedRawOf, vxOf, vyOf, vzOf,
      dxOf, dyOf, dzOf, dtOf, diffL, zip3W, FV.div, mag3, FV.sq, FV.add, FV.sqrt,
      fillNa0, savgol5, sgMid, dot5, FV.scale]

/-- Witness for C3 (amended): its instance on the six equal-timestamp
samples with smoothing disabled. -/
theorem c3_dt_zero_nonfinite_witness :
    (sixStillRows[0]? = some stillRow ∧ sixStillRows[1]? = some stillRow ∧
      stillRow.timestamp = stillRow.timestamp) ∧
    (∃ v, (vxOf sixStillRows)[1]? = some v ∧ v.isFin = false) ∧
    (∃ v, (speedOf sixStillRows false)[1]? = some v ∧ v.isFin = false) := by
  have h := c3_dt_zero_nonfinite sixStillRows 0 stillRow stillRow false
    (by simp [sixStillRows]) (by simp [sixStillRows]) rfl
  exact ⟨⟨by simp [sixStillRows], by simp [sixStillRows], rfl⟩, h.1,
    (h.2.2.2.2.2.2.2.2.2 (Or.inl rfl)).1⟩

theorem finiteVals_map_fin (xs : List ℝ) : finiteVals (xs.map FV.fin) = xs := by
  induction xs with
  | nil => rfl
  | cons x t ih =>
    show x :: finiteVals (t.map FV.fin) = x :: t
    rw [ih]

theorem speedValid_eq_map (l : List FV) : speedValid l = (finiteVals l).map FV.fin := by
  induction l with
  | nil => rfl
  | cons v t ih =>
    cases v with
    | fin x =>
      show FV.fin x :: speedValid t = (x :: finiteVals t).map FV.fin
      rw [List.map_cons, ih]
    | pinf => exact ih
    | ninf => exact ih
    | nan => exact ih

theorem validVals_eq_finiteVals (l : List FV) : validVals l = finiteVals l := by
  rw [validVals, speedValid_eq_map]
  exact finiteVals_map_fin (finiteVals l)

theorem sqrtFour : Real.sqrt 4 = 2 := by
  rw [show (4:ℝ) = 2 ^ 2 by norm_num, Real.sqrt_sq (by norm_num)]

theorem sqrtNine : Real.sqrt 9 = 3 := by
  rw [show (9:ℝ) = 3 ^ 2 by norm_num, Real.sqrt_sq (by norm_num)]

theorem sqrtSixteen : Real.sqrt 16 = 4 := by
  rw [show (16:ℝ) = 4 ^ 2 by norm_num, Real.sqrt_sq (by norm_num)]

/-- C4: the summary's speed statistics are computed over exactly the finite
speed values: the filtered series `replace([inf,-inf], nan).dropna()` holds
precisely the finite entries of the speed column, and its real values feed
mean/max/min/std; on a derived series whose speed column holds one
non-finite value (the index-0 NaN) among the four finite values 1,2,3,4, the
statistics are computed over exactly those four values. -/
theorem c4_summary_finite_only :
    (∀ l : List FV,
      validVals l = finiteVals l ∧ speedValid l = (finiteVals l).map FV.fin) ∧
    validVals (speedOf fiveRows true) = [1, 2, 3, 4] ∧
    speedMeanOf (speedOf fiveRows true) = 5 / 2 ∧
    speedMaxOf (speedOf fiveRows true) = some 4 ∧
    speedMinOf (speedOf fiveRows true) = some 1 ∧
    speedStdOf (speedOf fiveRows true) = Real.sqrt (5 / 3) := by
  have hv : validVals (speedOf fiveRows true) = [1, 2, 3, 4] := by
    norm_num [validVals, speedValid, finiteVals, dropNa, replaceInfNan, toFin,
      FV.isNan, speedOf, smoothIf, fiveRows, speedRawOf, vxOf, vyOf, vzOf,
      dxOf, dyOf, dzOf, dtOf, diffL, zip3W, FV.div, mag3, FV.sq, FV.add, FV.sqrt,
      Real.sqrt_one, sqrtFour, sqrtNine, sqrtSixteen, List.filterMap_cons,
      List.filterMap_nil]
  have hm : speedMeanOf (speedOf fiveRows true) = 5 / 2 := by
    rw [speedMeanOf, hv]
    norm_num [List.sum_cons, List.sum_nil]
  refine ⟨fun l => ⟨validVals_eq_finiteVals l, speedValid_eq_map l⟩, hv, hm, ?_, ?_, ?_⟩
  · rw [speedMaxOf, hv]
    simp only [listMax]
    norm_num [max_def]
  · rw [speedMinOf, hv]
    simp only [listMin]
    norm_num [min_def]
  · rw [speedStdOf, hv, hm]
    norm_num [List.sum_cons, List.sum_nil]

theorem lookupSeq_map (f : ℤ → List Row) :
    ∀ (mids : List ℤ) (mid : ℤ), mid ∈ mids →
      lookupSeq (mids.map (fun k => (k, f k))) mid = some (f mid) := by
  intro mids
  induction mids with
  | nil => intro mid h; simp at h
  | cons k t ih =>
    intro mid h
    by_cases hk : k = mid
    · subst hk
      simp [lookupSeq]
    · have hm : mid ∈ t := by
        rcases List.mem_cons.mp h with h1 | h1
        · exact absurd h1.symm hk
        · exact h1
      simp [lookupSeq, hk, ih mid hm]

/-- C5: bulk loading groups records by marker_id and sorts each group by
timestamp ascending before storing, so for every marker id present the
stored sequence has non-decreasing timestamps regardless of the input row
order (and is a permutation of exactly that marker's records). -/
theorem c5_load_groups_sorted :
    ∀ (records : List Row) (mid : ℤ),
      mid ∈ records.map (fun r => r.marker_id) →
      lookupSeq (groupAndSort records) mid = some (seqForRecords records mid) ∧
      List.Sorted rowLe (seqForRecords records mid) ∧
      (seqForRecords records mid).Perm
        (records.filter (fun r => decide (r.marker_id = mid))) := by
  intro records mid h
  refine ⟨?_, ?_, ?_⟩
  · exact lookupSeq_map (seqForRecords records) (uniqueIds records) mid
      (by rw [uniqueIds, List.mem_dedup]; exact h)
  · exact List.sorted_insertionSort rowLe _
  · exact List.perm_insertionSort rowLe _

/-- Witness for C5: marker 7's group of three out-of-order records is stored
sorted. -/
theorem c5_load_groups_sorted_witness :
    7 ∈ outOfOrderRecords.map (fun r => r.marker_id) ∧
    lookupSeq (groupAndSort outOfOrderRecords) 7 =
      some (seqForRecords outOfOrderRecords 7) ∧
    List.Sorted rowLe (seqForRecords outOfOrderRecords 7) := by
  have hmem : 7 ∈ outOfOrderRecords.map (fun r => r.marker_id) := by
    simp [outOfOrderRecords]
  have h := c5_load_groups_sorted outOfOrderRecords 7 hmem
  exact ⟨hmem, h.1, h.2.1⟩

/-- C6: the Idle-to-Recording transition clears all stored samples, resets
the frame counter and sets the session origin to the current time; every
sample appended while Recording carries timestamp `now - origin`; and no
sample is appended while Idle even when detections are present. -/
theorem c6_recording_session :
    (∀ (s : TrackerState) (now : ℝ), s.recording = false →
      (toggleRecording s now).recording = true ∧
      (toggleRecording s now).trajectoryData = [] ∧
      (toggleRecording s now).recordingStartTime = some now) ∧
    (∀ (s : TrackerState) (now origin : ℝ) (dets : List Det),
      s.recording = true → s.recordingStartTime = some origin →
      (processFrameStep s now dets).trajectoryData =
        s.trajectoryData ++ dets.map (detRow now origin s.frameCount) ∧
      (∀ d : Det, (detRow now origin s.frameCount d).timestamp = now - origin)) ∧
    (∀ (s : TrackerState) (now : ℝ) (dets : List Det),
      s.recording = false → processFrameStep s now dets = s) := by
  refine ⟨?_, ?_, ?_⟩
  · intro s now h
    simp [toggleRecording, h]
  · intro s now origin dets h ho
    cases dets with
    | nil => exact ⟨by simp [processFrameStep], fun e => rfl⟩
    | cons d ds => exact ⟨by simp [processFrameStep, h, ho], fun e => rfl⟩
  · intro s now dets h
    cases dets with
    | nil => simp [processFrameStep]
    | cons d ds => simp [processFrameStep, h]

/-- Witness for C6: toggling the idle tracker at time 10 clears its stored
sample and sets the origin; a frame processed while recording appends a row
stamped `now - origin`; the same frame processed while idle appends
nothing. -/
theorem c6_recording_session_witness :
    idleTracker.recording = false ∧
    (toggleRecording idleTracker 10).trajectoryData = [] ∧
    (toggleRecording idleTracker 10).recordingStartTime = some 10 ∧
    recTracker.recording = true ∧
    recTracker.recordingStartTime = some 4 ∧
    (processFrameStep recTracker 10 [oneDet]).trajectoryData =
      recTracker.trajectoryData ++ [oneDet].map (detRow 10 4 recTracker.frameCount) ∧
    processFrameStep idleTracker 10 [oneDet] = idleTracker := by
  have h1 := c6_recording_session.1 idleTracker 10 rfl
  have h2 := c6_recording_session.2.1 recTracker 10 4 [oneDet] rfl rfl
  have h3 := c6_recording_session.2.2 idleTracker 10 [oneDet] rfl
  exact ⟨rfl, h1.2.1, h1.2.2, rfl, rfl, h2.1, h3⟩

/-- C7 counterexample: loading a frame whose header lacks the `rz` column
over a store already holding marker 7 completes normally (`Except.ok`, i.e.
no `MalformedRecordError` or any other exception is raised): `load_data`
prints a warning and returns, assigning `self.df` but leaving the marker
store untouched. -/
theorem c7_missing_column_no_error :
    loadData missingRzFrame storeWithMarker7 =
      Except.ok { df := some missingRzFrame, markers := storeWithMarker7.markers } := by
  have hm : ¬ ((requiredCols.filter
      (fun c => ! missingRzFrame.cols.contains c)).isEmpty = true) := by decide
  simp only [loadData]
  rw [if_neg hm]

/-- C7 (amended): for every persisted input missing a required column, the
bulk load performs no ingestion and leaves the prior marker store unchanged,
but it completes normally after printing a warning instead of raising
`MalformedRecordError`. -/
theorem c7_missing_column_returns_unchanged :
    ∀ (frame : CsvFrame) (s : AnalyzerState) (c : String),
      c ∈ requiredCols → c ∉ frame.cols →
      loadData frame s = Except.ok { df := some frame, markers := s.markers } := by
  intro frame s c hc hnc
  have hmem : c ∈ requiredCols.filter (fun d => ! frame.cols.contains d) := by
    rw [List.mem_filter]
    exact ⟨hc, by simpa using hnc⟩
  have hne : ¬ ((requiredCols.filter (fun d => ! frame.cols.contains d)).isEmpty = true) := by
    cases hfe : requiredCols.filter (fun d => ! frame.cols.contains d) with
    | nil => rw [hfe] at hmem; simp at hmem
    | cons u t => simp
  simp only [loadData]
  rw [if_neg hne]

/-- Witness for C7 (amended): the `rz`-less header with a non-empty prior
store. -/
theorem c7_missing_column_returns_unchanged_witness :
    ("rz" ∈ requiredCols ∧ "rz" ∉ missingRzFrame.cols) ∧
    loadData missingRzFrame storeWithMarker7 =
      Except.ok { df := some missingRzFrame, markers := storeWithMarker7.markers } := by
  have h1 : "rz" ∈ requiredCols := by decide
  have h2 : "rz" ∉ missingRzFrame.cols := by decide
  exact ⟨⟨h1, h2⟩,
    c7_missing_column_returns_unchanged missingRzFrame storeWithMarker7 "rz" h1 h2⟩

/-- C8 counterexample: querying marker 5 on a store holding only marker 7
completes normally with an empty result dictionary (`Except.ok []`), rather
than failing with `NotFoundError`: `calculate_metrics` prints a warning and
`continue`s past the absent marker. -/
theorem c8_query_absent_returns_empty :
    calcMetricsE storeWithMarker7 (some 5) true = Except.ok [] := by
  have h : lookupSeq storeWithMarker7.markers 5 = none := by
    norm_num [storeWithMarker7, lookupSeq]
  simp [calcMetricsE, resultsOf, h]

/-- C8 (amended): for every marker id absent from the store, requesting that
marker's metrics prints a warning and skips it, returning normally with an
empty result, rather than raising `NotFoundError`. -/
theorem c8_absent_marker_skipped :
    ∀ (s : AnalyzerState) (mid : ℤ) (smooth : Bool),
      lookupSeq s.markers mid = none →
      calcMetricsE s (some mid) smooth = Except.ok [] := by
  intro s mid smooth h
  simp [calcMetricsE, resultsOf, h]

/-- Witness for C8 (amended): marker 5 queried on the store holding only
marker 7, with smoothing disabled. -/
theorem c8_absent_marker_skipped_witness :
    lookupSeq storeWithMarker7.markers 5 = none ∧
    calcMetricsE storeWithMarker7 (some 5) false = Except.ok [] := by
  have h : lookupSeq storeWithMarker7.markers 5 = none := by
    norm_num [storeWithMarker7, lookupSeq]
  exact ⟨h, c8_absent_marker_skipped storeWithMarker7 5 false h⟩

/-- C9: the acceleration components are the first difference of the velocity
divided by dt (`ax[i] = (vx[i] - vx[i-1]) / dt[i]`), and at index 1 they are
the NaN sentinel (no velocity exists at index 0 to difference against), as
is the raw acceleration magnitude (and the returned magnitude whenever the
smoothing pass does not overwrite it). -/
theorem c9_acceleration_first_difference :
    (∀ (rows : List Row) (i : ℕ) (pv cv dt : FV),
      (vxOf rows)[i]? = some pv → (vxOf rows)[i + 1]? = some cv →
      (dtOf rows)[i + 1]? = some dt →
      (axOf rows)[i + 1]? = some ((cv.sub pv).div dt)) ∧
    (∀ rows : List Row, 2 ≤ rows.length →
      (axOf rows)[1]? = some FV.nan ∧
      (ayOf rows)[1]? = some FV.nan ∧
      (azOf rows)[1]? = some FV.nan ∧
      (accelRawOf rows)[1]? = some FV.nan ∧
      (∀ smooth : Bool, smooth = false ∨ rows.length ≤ 5 →
        (accelOf rows smooth)[1]? = some FV.nan)) := by
  constructor
  · intro rows i pv cv dt h1 h2 ht
    exact axOf_getElem?_succ rows i pv cv dt h1 h2 ht
  · intro rows hlen
    have hne : rows ≠ [] := by
      intro h0
      rw [h0] at hlen
      simp at hlen
    have hlx : 1 < (vxOf rows).length := by rw [vxOf_length]; omega
    have hly : 1 < (vyOf rows).length := by rw [vyOf_length]; omega
    have hlz : 1 < (vzOf rows).length := by rw [vzOf_length]; omega
    have hlt : 1 < (dtOf rows).length := by rw [dtOf_length]; omega
    obtain ⟨cvx, hcvx⟩ : ∃ v, (vxOf rows)[1]? = some v :=
      ⟨(vxOf rows)[1], List.getElem?_eq_getElem hlx⟩
    obtain ⟨cvy, hcvy⟩ : ∃ v, (vyOf rows)[1]? = some v :=
      ⟨(vyOf rows)[1], List.getElem?_eq_getElem hly⟩
    obtain ⟨cvz, hcvz⟩ : ∃ v, (vzOf rows)[1]? = some v :=
      ⟨(vzOf rows)[1], List.getElem?_eq_getElem hlz⟩
    obtain ⟨d, hd⟩ : ∃ v, (dtOf rows)[1]? = some v :=
      ⟨(dtOf rows)[1], List.getElem?_eq_getElem hlt⟩
    have hax := axOf_getElem?_succ rows 0 FV.nan cvx d (vxOf_getElem?_zero rows hne) hcvx hd
    have hay := ayOf_getElem?_succ rows 0 FV.nan cvy d (vyOf_getElem?_zero rows hne) hcvy hd
    have haz := azOf_getElem?_succ rows 0 FV.nan cvz d (vzOf_getElem?_zero rows hne) hcvz hd
    rw [FV.sub_nan_right, FV.div_nan_left] at hax hay haz
    have hraw := accelRawOf_getElem? rows 1 FV.nan FV.nan FV.nan hax hay haz
    rw [mag3_nan] at hraw
    refine ⟨hax, hay, haz, hraw, ?_⟩
    intro smooth hoff
    rw [accelOf, smoothIf_off smooth rows.length _ hoff]
    exact hraw

/-- Witness for C9: on the five-sample example, the acceleration components
and raw magnitude at index 1 are NaN. -/
theorem c9_acceleration_first_difference_witness :
    2 ≤ fiveRows.length ∧
    (axOf fiveRows)[1]? = some FV.nan ∧
    (accelRawOf fiveRows)[1]? = some FV.nan := by
  have hl : 2 ≤ fiveRows.length := by simp [fiveRows]
  have h := c9_acceleration_first_difference.2 fiveRows hl
  exact ⟨hl, h.1, h.2.2.2.1⟩

/-- C10: deriving metrics never mutates the store (`calculate_metrics` works
on a copy of the stored per-marker frame): the analyzer state left behind is
the state given, any number of summary passes leaves every stored sequence
unchanged, and repeating the derivation over the same stored data produces
identical results. -/
theorem c10_derivation_pure :
    (∀ (s : AnalyzerState) (mid? : Option ℤ) (smooth : Bool),
      (calcMetricsStep s mid? smooth).1 = s) ∧
    (∀ (s : AnalyzerState) (mid? : Option ℤ) (n : ℕ) (mid : ℤ),
      lookupSeq ((fun st => printSummaryStep st mid?)^[n] s).markers mid =
        lookupSeq s.markers mid) ∧
    (∀ (s : AnalyzerState) (mid? : Option ℤ) (smooth : Bool),
      (calcMetricsStep (calcMetricsStep s mid? smooth).1 mid? smooth).2 =
        (calcMetricsStep s mid? smooth).2) := by
  have hid : ∀ (mid? : Option ℤ) (st : AnalyzerState), printSummaryStep st mid? = st :=
    fun _ _ => rfl
  refine ⟨fun s mid? smooth => rfl, ?_, fun s mid? smooth => rfl⟩
  intro s mid? n mid
  have hiter : (fun st => printSummaryStep st mid?)^[n] s = s := by
    induction n with
    | zero => rfl
    | succ k ih =>
      rw [Function.iterate_succ_apply]
      simp only [hid]
      exact ih
  rw [hiter]
